import Mathlib

/-!
Shallow embedding of `autoattack.py` (class `AutoAttack`): the evaluation
orchestrator that applies an ordered list of attack stages to a set of
samples, tracks per-sample robustness flags, and merges successful
perturbations into an adversarial-example tensor.

Modelling conventions:
* a sample (one row of `x_orig`) is a flat feature vector `Vec := List ℚ`;
* the classifier `model : Vec → Nat` returns the arg-max class directly
  (the composition of `get_logits` and `output.max(dim=1)[1]` in the source);
* each attack adapter is an opaque function `List Vec → List Nat → List Vec`
  (the `perturb` contract); with a fixed seed the adapters are deterministic,
  which is exactly what these functions model.  Setting `self.apgd.loss` to
  the ce / dlr variant and `self.fab.targeted` selects among the six entries
  of `AttackEnv`;
* Python exceptions (`assert`, `raise ValueError`, `TypeError` from
  operations on `None`) are modelled with `Except String`;
* verbose-only `print` calls are modelled as `LogEvent` values carrying the
  numbers that would be formatted.
-/

/-- A single input sample, flattened to a vector of rationals. -/
abbrev Vec := List ℚ

/-- The mutable per-run state of the evaluation: `robust_flags` and `x_adv`. -/
structure AAState where
  flags : List Bool
  xadv : List Vec
deriving DecidableEq

/-- The fields of the `AutoAttack` object.  `attacksToRun` is an `Option`
because Python's `list.extend` returns `None`: the constructor line
`self.attacks_to_run = attacks_to_run if not plus else attacks_to_run.extend([...])`
stores `None` whenever `plus` is true at construction.  The four numeric
fields model the adapter configuration set in `__init__` and mutated by
`cheap()`. -/
structure AAConfig where
  norm : String
  epsilon : ℚ
  seed : Option Nat
  verbose : Bool
  attacksToRun : Option (List String)
  plus : Bool
  apgd_n_restarts : Nat
  fab_n_restarts : Nat
  apgd_targeted_n_restarts : Nat
  square_n_queries : Nat
deriving DecidableEq

/-- The six attack entry points reachable from the dispatch chain in
`run_standard_evaluation`: `apgd` with loss ce, `apgd` with loss dlr,
`fab` untargeted, `square`, `apgd_targeted`, and `fab` with targeted set. -/
structure AttackEnv where
  apgd_ce : List Vec → List Nat → List Vec
  apgd_dlr : List Vec → List Nat → List Vec
  fab : List Vec → List Nat → List Vec
  square : List Vec → List Nat → List Vec
  apgd_t : List Vec → List Nat → List Vec
  fab_t : List Vec → List Nat → List Vec

/-- One verbose-mode diagnostic message, carrying the values that the
source would interpolate into the printed string.  For the `L2` branch of
the final check the per-sample values are the squared distances (the
source applies `sqrt`, a display-only monotone map not representable in ℚ). -/
inductive LogEvent where
  | initialAccuracy (acc : ℚ)
  | batchReport (attack : String) (batchNum nBatchesTotal numNonRobust batchSize : Nat)
  | stageReport (attack : String) (acc : ℚ)
  | finalCheck (norm : String) (resPerSample : List ℚ)
  | finalAccuracy (acc : ℚ)
  | individualReport (attack : String) (acc : ℚ)
deriving DecidableEq

/-- Everything observable about one `run_standard_evaluation` call: the
updated object fields, the returned `x_adv`, the final `robust_flags`, the
state after each executed stage (instrumentation for the stage loop), and
the verbose log. -/
structure RunOutput where
  cfg : AAConfig
  xadv : List Vec
  flags : List Bool
  trace : List (String × AAState)
  log : List LogEvent
deriving DecidableEq

/-- `int(np.ceil(n / bs))` for natural `n`, `bs`. -/
def nBatches (n bs : Nat) : Nat := (n + bs - 1) / bs

/-- Helper for `activeIdcs`, carrying the position of the head of the list. -/
def activeIdcsAux : Nat → List Bool → List Nat
  | _, [] => []
  | i, b :: rest => if b then i :: activeIdcsAux (i + 1) rest else activeIdcsAux (i + 1) rest

/-- `torch.nonzero(robust_flags)` as an ordered index list. -/
def activeIdcs (flags : List Bool) : List Nat := activeIdcsAux 0 flags

/-- The if/elif dispatch chain on the attack identifier
(`run_standard_evaluation`, lines 129-164); the final `else` raises
`ValueError('Attack not supported')`. -/
def dispatch (env : AttackEnv) (attack : String) (x : List Vec) (y : List Nat) :
    Except String (List Vec) :=
  if attack = "apgd-ce" then .ok (env.apgd_ce x y)
  else if attack = "apgd-dlr" then .ok (env.apgd_dlr x y)
  else if attack = "fab" then .ok (env.fab x y)
  else if attack = "square" then .ok (env.square x y)
  else if attack = "apgd-t" then .ok (env.apgd_t x y)
  else if attack = "fab-t" then .ok (env.fab_t x y)
  else .error ("Attack not supported")

/-- Post-attack merge (lines 166-171): probe the perturbed batch, and at
every position where the prediction differs from the label, clear the
global robust flag and overwrite the `x_adv` entry with the perturbed
sample.  `idcs` is `batch_datapoint_idcs`, `y` the gathered labels, `adv`
the adapter output. -/
def applyResults (model : Vec → Nat) (y : List Nat) (adv : List Vec)
    (idcs : List Nat) (st : AAState) : AAState :=
  idcs.enum.foldl (fun acc p =>
    if model (adv.getD p.1 []) ≠ y.getD p.1 0 then
      { flags := acc.flags.set p.2 false, xadv := acc.xadv.set p.2 (adv.getD p.1 []) }
    else acc) st

/-- One sub-batch of one stage: gather the still-robust samples at `idcs`,
dispatch to the attack, merge the result, and emit the per-batch report
when verbose. -/
def batchStep (verbose : Bool) (model : Vec → Nat) (env : AttackEnv)
    (xorig : List Vec) (yorig : List Nat) (attack : String) (nb : Nat)
    (st : AAState) (batchIdx : Nat) (idcs : List Nat) :
    Except String (AAState × List LogEvent) :=
  let x := idcs.map (fun i => xorig.getD i [])
  let y := idcs.map (fun i => yorig.getD i 0)
  match dispatch env attack x y with
  | .error e => .error e
  | .ok adv =>
    let numNonRobust := (idcs.enum.filter
      (fun p => model (adv.getD p.1 []) ≠ y.getD p.1 0)).length
    .ok (applyResults model y adv idcs st,
      if verbose then [LogEvent.batchReport attack (batchIdx + 1) nb numNonRobust x.length]
      else [])

/-- The inner `for batch_idx in range(n_batches)` loop of one stage; a
raised `ValueError` aborts the whole call. -/
def runBatches (verbose : Bool) (model : Vec → Nat) (env : AttackEnv)
    (xorig : List Vec) (yorig : List Nat) (attack : String) (nb : Nat) :
    List (Nat × List Nat) → AAState → Except String (AAState × List LogEvent)
  | [], st => .ok (st, [])
  | b :: rest, st =>
    match batchStep verbose model env xorig yorig attack nb st b.1 b.2 with
    | .error e => .error e
    | .ok (st1, log1) =>
      match runBatches verbose model env xorig yorig attack nb rest st1 with
      | .error e => .error e
      | .ok (st2, log2) => .ok (st2, log1 ++ log2)

/-- One stage of the loop (lines 105-181, minus the break): recompute
`num_robust`, extract the active index list, slice it into sub-batches of
size `bs` (`end_idx = min((batch_idx + 1) * bs, num_robust)`), run them,
then report the cumulative robust accuracy when verbose. -/
def stageStep (verbose : Bool) (model : Vec → Nat) (env : AttackEnv)
    (xorig : List Vec) (yorig : List Nat) (bs : Nat) (attack : String)
    (st : AAState) : Except String (AAState × List LogEvent) :=
  let numRobust := st.flags.count true
  let nb := nBatches numRobust bs
  let idcs := activeIdcs st.flags
  let batches := (List.range nb).map
    (fun b => (b, (idcs.drop (b * bs)).take (min ((b + 1) * bs) numRobust - b * bs)))
  match runBatches verbose model env xorig yorig attack nb batches st with
  | .error e => .error e
  | .ok (st1, log1) =>
    .ok (st1, log1 ++
      (if verbose then [LogEvent.stageReport attack ((st1.flags.count true : ℚ) / xorig.length)]
       else []))

/-- The `for attack in self.attacks_to_run` loop (lines 103-181): at the
top of every iteration `num_robust` is recomputed and the loop breaks when
it is zero, before any perturb call of that stage.  Returns the final
state, the `(attack, state-after-stage)` trace of the stages that actually
executed, and the verbose log. -/
def runStages (verbose : Bool) (model : Vec → Nat) (env : AttackEnv)
    (xorig : List Vec) (yorig : List Nat) (bs : Nat) :
    List String → AAState → Except String (AAState × List (String × AAState) × List LogEvent)
  | [], st => .ok (st, [], [])
  | attack :: rest, st =>
    if st.flags.count true = 0 then .ok (st, [], [])
    else
      match stageStep verbose model env xorig yorig bs attack st with
      | .error e => .error e
      | .ok (st1, log1) =>
        match runStages verbose model env xorig yorig bs rest st1 with
        | .error e => .error e
        | .ok (fin, tr, log2) => .ok (fin, (attack, st1) :: tr, log1 ++ log2)

/-- The initial clean-accuracy pass of `run_standard_evaluation`
(lines 84-94): `robust_flags` is zero-initialised and each batch writes its
correctness vector into its own slice `[start_idx:end_idx]`; since the
slices cover `0..N` disjointly and in order, the result is the
concatenation of the per-batch correctness vectors. -/
def initRobustFlags (model : Vec → Nat) (xorig : List Vec) (yorig : List Nat)
    (bs : Nat) : List Bool :=
  let n := xorig.length
  (List.range (nBatches n bs)).foldl (fun acc b =>
    let s := b * bs
    let e := min ((b + 1) * bs) n
    let x := (xorig.drop s).take (e - s)
    let y := (yorig.drop s).take (e - s)
    acc ++ (List.zip x y).map (fun p => decide (model p.1 = p.2))) []

/-- Per-sample sup-norm distance: the translation of
`(x_adv - x_orig).abs().view(N, -1).max(1)[0]` for one sample. -/
def linfDist (a b : Vec) : ℚ := ((List.zip a b).map (fun p => |p.1 - p.2|)).foldl max 0

/-- Per-sample squared Euclidean distance:
`((x_adv - x_orig) ** 2).view(N, -1).sum(-1)`; the source additionally
takes `sqrt` before printing, a display-only monotone step. -/
def l2DistSq (a b : Vec) : ℚ := ((List.zip a b).map (fun p => (p.1 - p.2) ^ 2)).foldl (· + ·) 0

/-- The per-sample distances computed by the verbose-only final check
(lines 184-190).  For a norm outside the two branches the source would hit
an unbound `res` (unreachable after the constructor's assert); modelled as
the empty list. -/
def finalRes (norm : String) (xorig xadv : List Vec) : List ℚ :=
  if norm = "Linf" then (List.zip xadv xorig).map (fun p => linfDist p.1 p.2)
  else if norm = "L2" then (List.zip xadv xorig).map (fun p => l2DistSq p.1 p.2)
  else []

/-- The reconciliation block at the top of `run_standard_evaluation`
(lines 70-80): when `plus` is set, append whichever of the two targeted
identifiers is missing; otherwise remove them (`list.remove` drops the
first occurrence).  If `attacks_to_run` is `None` — which `__init__`
produces whenever it was called with `plus=True` — every membership test
raises a `TypeError`. -/
def reconcileAttacks (plus : Bool) : Option (List String) → Except String (List String)
  | none => .error ("TypeError: argument of type NoneType is not iterable")
  | some attacks =>
    .ok (if plus then
          let a1 := if ("apgd-t") ∈ attacks then attacks else attacks ++ ["apgd-t"]
          if ("fab-t") ∈ a1 then a1 else a1 ++ ["fab-t"]
        else ((attacks.erase ("apgd-t")).erase ("fab-t")))

/-- `AutoAttack.run_standard_evaluation(x_orig, y_orig, bs)`: reconcile the
stage plan with the `plus` flag, run the initial accuracy pass, initialise
`x_adv` as a copy of `x_orig`, execute the stage loop, and append the
verbose-only final check.  The returned `cfg` records the in-place
mutation of `self.attacks_to_run`. -/
def run_standard_evaluation (cfg : AAConfig) (model : Vec → Nat) (env : AttackEnv)
    (xorig : List Vec) (yorig : List Nat) (bs : Nat) : Except String RunOutput :=
  match reconcileAttacks cfg.plus cfg.attacksToRun with
  | .error e => .error e
  | .ok attacks =>
    let cfg1 := { cfg with attacksToRun := some attacks }
    let n := xorig.length
    let flags0 := initRobustFlags model xorig yorig bs
    let log0 := if cfg.verbose then [LogEvent.initialAccuracy ((flags0.count true : ℚ) / n)]
      else []
    match runStages cfg.verbose model env xorig yorig bs attacks
        { flags := flags0, xadv := xorig } with
    | .error e => .error e
    | .ok (fin, tr, log1) =>
      let logF := if cfg.verbose then
          [LogEvent.finalCheck cfg.norm (finalRes cfg.norm xorig fin.xadv),
           LogEvent.finalAccuracy ((fin.flags.count true : ℚ) / n)]
        else []
      .ok { cfg := cfg1, xadv := fin.xadv, flags := fin.flags, trace := tr,
            log := log0 ++ log1 ++ logF }

/-- Projection of a run onto the values the caller observes as results:
the returned `x_adv` and the final robust flags (log discarded). -/
def resultOf (r : Except String RunOutput) : Except String (List Vec × List Bool) :=
  r.map (fun o => (o.xadv, o.flags))

/-- `AutoAttack.clean_accuracy(x_orig, y_orig, bs)` (lines 195-207).  The
batch count is `x_orig.shape[0] // bs` — floor division — even though each
slice end is clamped with `min(..., x_orig.shape[0])`, so a trailing
partial batch is never visited.  Error paths: `bs = 0` raises
`ZeroDivisionError` at the floor division itself; `acc` starts as the
Python float `0.` and becomes a tensor only when the loop body runs, so
with `n_batches = 0` (in particular `bs > N`) the final `acc.item()`
raises `AttributeError`; on an empty sample set with `verbose` set the
report at line 205 divides by `N = 0` first.  `verbose` is the object's
`self.verbose` at call time; its print is otherwise display-only. -/
def clean_accuracy (verbose : Bool) (model : Vec → Nat) (xorig : List Vec)
    (yorig : List Nat) (bs : Nat) : Except String ℚ :=
  let n := xorig.length
  if bs = 0 then .error ("ZeroDivisionError: integer division or modulo by zero")
  else
    let nb := n / bs
    let acc := (List.range nb).foldl (fun acc counter =>
      let s := counter * bs
      let e := min ((counter + 1) * bs) n
      let x := (xorig.drop s).take (e - s)
      let y := (yorig.drop s).take (e - s)
      acc + ((List.zip x y).filter (fun p => model p.1 = p.2)).length) 0
    if verbose ∧ n = 0 then .error ("ZeroDivisionError: float division by zero")
    else if nb = 0 then .error ("AttributeError: float object has no attribute item")
    else .ok ((acc : ℚ) / n)

/-- The count of samples a probe of the full set reports as correctly
classified — the numerator of the fraction `clean_accuracy` is documented
to return over `N`. -/
def correctCount (model : Vec → Nat) (xorig : List Vec) (yorig : List Nat) : Nat :=
  ((List.zip xorig yorig).filter (fun p => model p.1 = p.2)).length

/-- `AutoAttack.__init__`: `assert norm in ['Linf', 'L2']`, then field
initialisation.  The line
`self.attacks_to_run = attacks_to_run if not plus else attacks_to_run.extend(['apgd-t', 'fab-t'])`
evaluates `list.extend`, which mutates in place and returns `None`, so the
stored value is `None` whenever `plus` is true.  Adapter construction
fixes `n_restarts` 5 / 5 / 1 (apgd / fab / apgd_targeted) and
`n_queries = 5000` for square. -/
def initAutoAttack (norm : String) (eps : ℚ) (seed : Option Nat) (verbose : Bool)
    (attacks_to_run : List String) (plus : Bool) : Except String AAConfig :=
  if norm ∈ (["Linf", "L2"] : List String) then
    .ok { norm := norm, epsilon := eps, seed := seed, verbose := verbose,
          attacksToRun := if ¬ plus then some attacks_to_run else none,
          plus := plus,
          apgd_n_restarts := 5, fab_n_restarts := 5,
          apgd_targeted_n_restarts := 1, square_n_queries := 5000 }
  else .error ("AssertionError")

/-- `AutoAttack.cheap()` (lines 235-240): sets the three restart counts to
1, the square query budget to 1000, and also clears the `plus` flag. -/
def cheap (cfg : AAConfig) : AAConfig :=
  { cfg with apgd_n_restarts := 1, fab_n_restarts := 1,
             apgd_targeted_n_restarts := 1, square_n_queries := 1000,
             plus := false }

/-- The plus-extension block at the top of
`run_standard_evaluation_individual` (lines 211-215): extend-only (no
removal branch).  With `attacks_to_run = None` the membership test (plus
set) or the subsequent `for c in l_attacks` (plus clear) raises a
`TypeError` either way. -/
def indivExtend (plus : Bool) : Option (List String) → Except String (List String)
  | none => .error ("TypeError: argument of type NoneType is not iterable")
  | some attacks =>
    .ok (if plus then
          let a1 := if ("apgd-t") ∈ attacks then attacks else attacks ++ ["apgd-t"]
          if ("fab-t") ∈ a1 then a1 else a1 ++ ["fab-t"]
        else attacks)

/-- The `for c in l_attacks` loop of `run_standard_evaluation_individual`:
each iteration rebinds `self.attacks_to_run = [c]`, runs the nested
standard evaluation (which further mutates the object), and records the
per-attack adversarial tensor; when the saved verbosity is set, the
report at line 228 recomputes accuracy via `clean_accuracy` on the
perturbed set (with the object's now-cleared `self.verbose`), and any
exception it raises — such as the `AttributeError` when `bs > N` — aborts
the whole call. -/
def indivLoop (model : Vec → Nat) (env : AttackEnv) (xorig : List Vec)
    (yorig : List Nat) (bs : Nat) (verboseIndiv : Bool) :
    List String → AAConfig →
    Except String (AAConfig × List (String × List Vec) × List LogEvent)
  | [], cfg => .ok (cfg, [], [])
  | c :: rest, cfg =>
    match run_standard_evaluation { cfg with attacksToRun := some [c] }
        model env xorig yorig bs with
    | .error e => .error e
    | .ok out =>
      let rep : Except String (List LogEvent) :=
        if verboseIndiv then
          match clean_accuracy out.cfg.verbose model out.xadv yorig bs with
          | .error e => .error e
          | .ok accIndiv => .ok [LogEvent.individualReport c accIndiv]
        else .ok []
      match rep with
      | .error e => .error e
      | .ok log1 =>
        match indivLoop model env xorig yorig bs verboseIndiv rest out.cfg with
        | .error e => .error e
        | .ok (cfgF, adv, log2) => .ok (cfgF, (c, out.xadv) :: adv, log1 ++ log2)

/-- `AutoAttack.run_standard_evaluation_individual(x_orig, y_orig, bs)`
(lines 209-233): extend the plan when `plus` is set, snapshot
`l_attacks = self.attacks_to_run`, clear `self.plus`, save and clear
`self.verbose`, then run each attack as a singleton plan.  Neither
`attacks_to_run`, `verbose` nor `plus` is restored before returning. -/
def run_standard_evaluation_individual (cfg : AAConfig) (model : Vec → Nat)
    (env : AttackEnv) (xorig : List Vec) (yorig : List Nat) (bs : Nat) :
    Except String (AAConfig × List (String × List Vec) × List LogEvent) :=
  match indivExtend cfg.plus cfg.attacksToRun with
  | .error e => .error e
  | .ok lAttacks =>
    let verboseIndiv := cfg.verbose
    let cfg1 := { cfg with attacksToRun := some lAttacks, plus := false, verbose := false }
    indivLoop model env xorig yorig bs verboseIndiv lAttacks cfg1

/-! ### Tensor-shape model for the sub-batch extraction (lines 112-126)

The orchestration model above is value-level; the following definitions
model the *shapes* (as dimension lists) produced by the index bookkeeping:
`torch.nonzero`, in-place `squeeze_()`, slicing `[start_idx:end_idx]`,
advanced indexing `x_orig[batch_datapoint_idcs, :]`, and the
`if len(x.shape) == 3: x.unsqueeze_(dim=0)` guard. -/

/-- Shape of `torch.nonzero(flags, as_tuple=False)` on a 1-d input with
`numNonzero` hits: a `numNonzero × 1` matrix of indices. -/
def nonzeroShape (numNonzero : Nat) : List Nat := [numNonzero, 1]

/-- In-place `squeeze_()` with no argument removes every dimension of
extent 1. -/
def squeezeShape (s : List Nat) : List Nat := s.filter (fun d => d ≠ 1)

/-- Shape after the Python slice `[start:stop]` along dimension 0. -/
def sliceDim0 (s : List Nat) (start stop : Nat) : List Nat :=
  (min stop (s.getD 0 0) - start) :: s.tail

/-- Shape of `x[idx, :]` for a single integer index tensor `idx` in
dimension 0: the index tensor's shape followed by the remaining dimensions
of `x`. -/
def advIndexDim0 (xShape idxShape : List Nat) : List Nat := idxShape ++ xShape.tail

/-- The guard at lines 124-126: restore a rank-3 tensor to rank 4 by
unsqueezing a leading batch dimension; anything of another rank passes
through unchanged. -/
def ensure4d (s : List Nat) : List Nat := if s.length = 3 then 1 :: s else s

/-- Shape of the sub-batch `x` handed to the attack, as a function of the
input tensor shape, the robust count, and the batch slice bounds: the
translation of lines 112-126 (`nonzero`, the `num_robust > 1` squeeze
guard, the slice, the advanced indexing, and the rank-3 guard). -/
def subBatchShape (xOrigShape : List Nat) (numRobust start stop : Nat) : List Nat :=
  let idcsShape := nonzeroShape numRobust
  let idcsShape1 := if numRobust > 1 then squeezeShape idcsShape else idcsShape
  let batchIdcsShape := sliceDim0 idcsShape1 start stop
  ensure4d (advIndexDim0 xOrigShape batchIdcsShape)

/-! ### Concrete instances used to exercise the model -/

/-- The closed vocabulary of attack identifiers accepted by the dispatch
chain. -/
def knownAttacks : List String :=
  ["apgd-ce", "apgd-dlr", "fab", "square", "apgd-t", "fab-t"]

/-- A classifier that predicts class 0 for every input. -/
def zeroModel : Vec → Nat := fun _ => 0

/-- A threshold classifier: class 1 when the first feature reaches 10,
class 0 otherwise. -/
def thrModel : Vec → Nat := fun v => if v.getD 0 0 ≥ 10 then 1 else 0

/-- An attack environment in which every adapter returns its input
unchanged (never succeeds). -/
def idEnv : AttackEnv :=
  { apgd_ce := fun x _ => x, apgd_dlr := fun x _ => x, fab := fun x _ => x,
    square := fun x _ => x, apgd_t := fun x _ => x, fab_t := fun x _ => x }

/-- An environment whose ce-loss gradient attack pushes every sample whose
first feature is 0 across `thrModel`'s threshold, and whose other adapters
do nothing. -/
def breakEnv : AttackEnv :=
  { idEnv with apgd_ce := fun x _ => x.map (fun v => if v.getD 0 0 = 0 then [100] else v) }

/-- The object state produced by constructing with the default arguments
(`plus=False`, default stage list, `verbose` cleared for compact runs). -/
def baseCfg : AAConfig :=
  { norm := "Linf", epsilon := 3/10, seed := none, verbose := false,
    attacksToRun := some ["apgd-ce", "apgd-dlr", "fab", "square"], plus := false,
    apgd_n_restarts := 5, fab_n_restarts := 5,
    apgd_targeted_n_restarts := 1, square_n_queries := 5000 }

/-- The same object with only the two gradient stages configured. -/
def cfg3 : AAConfig := { baseCfg with attacksToRun := some ["apgd-ce", "apgd-dlr"] }

/-- The output of a four-stage run with `idEnv` on a single correctly
classified sample: every stage executes, nothing is ever broken. -/
def survivingRunOut : RunOutput :=
  { cfg := baseCfg, xadv := [[0]], flags := [true],
    trace := [("apgd-ce", ⟨[true], [[0]]⟩), ("apgd-dlr", ⟨[true], [[0]]⟩),
              ("fab", ⟨[true], [[0]]⟩), ("square", ⟨[true], [[0]]⟩)],
    log := [] }

/-- The output of a two-stage run with `breakEnv` on two samples: the
first sample is broken by the first stage, the second survives both. -/
def twoStageOut : RunOutput :=
  { cfg := cfg3, xadv := [[100], [20]], flags := [false, true],
    trace := [("apgd-ce", ⟨[false, true], [[100], [20]]⟩),
              ("apgd-dlr", ⟨[false, true], [[100], [20]]⟩)],
    log := [] }

/-! ### Helper lemmas -/

lemma getD_set_ne {α : Type} (l : List α) (i j : Nat) (a d : α) (h : i ≠ j) :
    (l.set i a).getD j d = l.getD j d := by
  simp [List.getD_eq_getElem?_getD, List.getElem?_set_ne h]

lemma getD_set_false_of_false {l : List Bool} {i j : Nat}
    (h : l.getD j false = false) : (l.set i false).getD j false = false := by
  rcases eq_or_ne i j with rfl | hne
  · simp only [List.getD_eq_getElem?_getD, List.getElem?_set_self']
    rcases h2 : l[i]? with _ | v <;> simp
  · rw [getD_set_ne _ _ _ _ _ hne]; exact h

lemma getD_true_of_set_false {l : List Bool} {i j : Nat}
    (h : (l.set i false).getD j false = true) : j ≠ i ∧ l.getD j false = true := by
  rcases eq_or_ne j i with rfl | hne
  · exfalso
    simp only [List.getD_eq_getElem?_getD, List.getElem?_set_self'] at h
    rcases h2 : l[j]? with _ | v <;> simp [h2] at h
  · refine ⟨hne, ?_⟩
    rw [getD_set_ne _ _ _ _ _ (Ne.symm hne)] at h; exact h

/-- Any prefix-closed property preserved by a fold step is preserved by the
fold. -/
lemma foldl_preserves {β γ : Type} {P : β → Prop} (f : β → γ → β)
    (h : ∀ st x, P st → P (f st x)) :
    ∀ (l : List γ) (st : β), P st → P (l.foldl f st) := by
  intro l
  induction l with
  | nil => intro st hst; exact hst
  | cons x xs ih => intro st hst; exact ih _ (h st x hst)

/-! ### The never-resurrected ordering on flag vectors -/

/-- `FalsePreserved f g`: every index that is already non-robust in `f`
is still non-robust in `g`. -/
def FalsePreserved (f g : List Bool) : Prop :=
  ∀ i, f.getD i false = false → g.getD i false = false

lemma falsePreserved_refl (f : List Bool) : FalsePreserved f f := fun _ h => h

lemma falsePreserved_trans {f g h : List Bool}
    (h1 : FalsePreserved f g) (h2 : FalsePreserved g h) : FalsePreserved f h :=
  fun i hi => h2 i (h1 i hi)

lemma falsePreserved_set_false (f : List Bool) (i : Nat) :
    FalsePreserved f (f.set i false) := fun _ h => getD_set_false_of_false h

lemma applyResults_falsePreserved (model : Vec → Nat) (y : List Nat)
    (adv : List Vec) (idcs : List Nat) (st : AAState) :
    FalsePreserved st.flags (applyResults model y adv idcs st).flags := by
  unfold applyResults
  refine foldl_preserves (P := fun s => FalsePreserved st.flags s.flags) _ ?_
    idcs.enum st (falsePreserved_refl _)
  intro s p hs
  dsimp only
  by_cases hc : model (adv.getD p.1 []) ≠ y.getD p.1 0
  · rw [if_pos hc]
    exact falsePreserved_trans hs (falsePreserved_set_false _ _)
  · rw [if_neg hc]; exact hs

/-! ### The clean-original invariant -/

/-- `PreservesOrig xorig st`: every still-robust index holds the untouched
original input in `x_adv`. -/
def PreservesOrig (xorig : List Vec) (st : AAState) : Prop :=
  ∀ i, st.flags.getD i false = true → st.xadv.getD i [] = xorig.getD i []

lemma applyResults_preservesOrig (model : Vec → Nat) (y : List Nat)
    (adv : List Vec) (idcs : List Nat) (xorig : List Vec) (st : AAState)
    (hst : PreservesOrig xorig st) :
    PreservesOrig xorig (applyResults model y adv idcs st) := by
  unfold applyResults
  refine foldl_preserves (P := PreservesOrig xorig) _ ?_ idcs.enum st hst
  intro s p hs
  dsimp only
  by_cases hc : model (adv.getD p.1 []) ≠ y.getD p.1 0
  · rw [if_pos hc]
    intro i hi
    obtain ⟨hne, hflag⟩ := getD_true_of_set_false hi
    rw [getD_set_ne _ _ _ _ _ (Ne.symm hne)]
    exact hs i hflag
  · rw [if_neg hc]; exact hs

lemma batchStep_falsePreserved {v : Bool} {mo : Vec → Nat} {env : AttackEnv}
    {xo : List Vec} {yo : List Nat} {a : String} {nb : Nat} {st : AAState}
    {bi : Nat} {idcs : List Nat} {st1 : AAState} {log1 : List LogEvent}
    (h : batchStep v mo env xo yo a nb st bi idcs = .ok (st1, log1)) :
    FalsePreserved st.flags st1.flags := by
  simp only [batchStep] at h
  split at h
  · exact Except.noConfusion h
  · simp only [Except.ok.injEq, Prod.mk.injEq] at h
    obtain ⟨h1, -⟩ := h
    subst h1
    exact applyResults_falsePreserved _ _ _ _ _

lemma batchStep_preservesOrig {v : Bool} {mo : Vec → Nat} {env : AttackEnv}
    {xo : List Vec} {yo : List Nat} {a : String} {nb : Nat} {st : AAState}
    {bi : Nat} {idcs : List Nat} {st1 : AAState} {log1 : List LogEvent}
    (h : batchStep v mo env xo yo a nb st bi idcs = .ok (st1, log1))
    (hst : PreservesOrig xo st) : PreservesOrig xo st1 := by
  simp only [batchStep] at h
  split at h
  · exact Except.noConfusion h
  · simp only [Except.ok.injEq, Prod.mk.injEq] at h
    obtain ⟨h1, -⟩ := h
    subst h1
    exact applyResults_preservesOrig _ _ _ _ _ _ hst

lemma runBatches_falsePreserved {v : Bool} {mo : Vec → Nat} {env : AttackEnv}
    {xo : List Vec} {yo : List Nat} {a : String} {nb : Nat} :
    ∀ {bl : List (Nat × List Nat)} {st st1 : AAState} {log1 : List LogEvent},
      runBatches v mo env xo yo a nb bl st = .ok (st1, log1) →
      FalsePreserved st.flags st1.flags := by
  intro bl
  induction bl with
  | nil =>
    intro st st1 log1 h
    simp only [runBatches, Except.ok.injEq, Prod.mk.injEq] at h
    obtain ⟨h1, -⟩ := h
    subst h1
    exact falsePreserved_refl _
  | cons b rest ih =>
    intro st st1 log1 h
    simp only [runBatches] at h
    split at h
    · exact Except.noConfusion h
    · rename_i stA logA hb
      split at h
      · exact Except.noConfusion h
      · rename_i stB logB hr
        simp only [Except.ok.injEq, Prod.mk.injEq] at h
        obtain ⟨h1, -⟩ := h
        subst h1
        exact falsePreserved_trans (batchStep_falsePreserved hb) (ih hr)

lemma runBatches_preservesOrig {v : Bool} {mo : Vec → Nat} {env : AttackEnv}
    {xo : List Vec} {yo : List Nat} {a : String} {nb : Nat} :
    ∀ {bl : List (Nat × List Nat)} {st st1 : AAState} {log1 : List LogEvent},
      runBatches v mo env xo yo a nb bl st = .ok (st1, log1) →
      PreservesOrig xo st → PreservesOrig xo st1 := by
  intro bl
  induction bl with
  | nil =>
    intro st st1 log1 h hst
    simp only [runBatches, Except.ok.injEq, Prod.mk.injEq] at h
    obtain ⟨h1, -⟩ := h
    subst h1
    exact hst
  | cons b rest ih =>
    intro st st1 log1 h hst
    simp only [runBatches] at h
    split at h
    · exact Except.noConfusion h
    · rename_i stA logA hb
      split at h
      · exact Except.noConfusion h
      · rename_i stB logB hr
        simp only [Except.ok.injEq, Prod.mk.injEq] at h
        obtain ⟨h1, -⟩ := h
        subst h1
        exact ih hr (batchStep_preservesOrig hb hst)

lemma stageStep_falsePreserved {v : Bool} {mo : Vec → Nat} {env : AttackEnv}
    {xo : List Vec} {yo : List Nat} {bs : Nat} {a : String} {st st1 : AAState}
    {log1 : List LogEvent}
    (h : stageStep v mo env xo yo bs a st = .ok (st1, log1)) :
    FalsePreserved st.flags st1.flags := by
  simp only [stageStep] at h
  split at h
  · exact Except.noConfusion h
  · rename_i stA logA hr
    simp only [Except.ok.injEq, Prod.mk.injEq] at h
    obtain ⟨h1, -⟩ := h
    subst h1
    exact runBatches_falsePreserved hr

lemma stageStep_preservesOrig {v : Bool} {mo : Vec → Nat} {env : AttackEnv}
    {xo : List Vec} {yo : List Nat} {bs : Nat} {a : String} {st st1 : AAState}
    {log1 : List LogEvent}
    (h : stageStep v mo env xo yo bs a st = .ok (st1, log1))
    (hst : PreservesOrig xo st) : PreservesOrig xo st1 := by
  simp only [stageStep] at h
  split at h
  · exact Except.noConfusion h
  · rename_i stA logA hr
    simp only [Except.ok.injEq, Prod.mk.injEq] at h
    obtain ⟨h1, -⟩ := h
    subst h1
    exact runBatches_preservesOrig hr hst

lemma runStages_trace_falsePreserved {v : Bool} {mo : Vec → Nat} {env : AttackEnv}
    {xo : List Vec} {yo : List Nat} {bs : Nat} :
    ∀ {l : List String} {st fin : AAState} {tr : List (String × AAState)}
      {log : List LogEvent},
      runStages v mo env xo yo bs l st = .ok (fin, tr, log) →
      FalsePreserved st.flags fin.flags ∧
      ∀ (k : Nat) (e : String × AAState), tr[k]? = some e →
        FalsePreserved st.flags e.2.flags := by
  intro l
  induction l with
  | nil =>
    intro st fin tr log h
    simp only [runStages, Except.ok.injEq, Prod.mk.injEq] at h
    obtain ⟨h1, h2, -⟩ := h
    subst h1; subst h2
    refine ⟨falsePreserved_refl _, ?_⟩
    intro k e he
    simp at he
  | cons a rest ih =>
    intro st fin tr log h
    simp only [runStages] at h
    split at h
    · simp only [Except.ok.injEq, Prod.mk.injEq] at h
      obtain ⟨h1, h2, -⟩ := h
      subst h1; subst h2
      refine ⟨falsePreserved_refl _, ?_⟩
      intro k e he
      simp at he
    · split at h
      · exact Except.noConfusion h
      · rename_i st1 log1 hs
        split at h
        · exact Except.noConfusion h
        · rename_i finA trA log2 hr
          simp only [Except.ok.injEq, Prod.mk.injEq] at h
          obtain ⟨h1, h2, -⟩ := h
          subst h1; subst h2
          refine ⟨falsePreserved_trans (stageStep_falsePreserved hs) (ih hr).1, ?_⟩
          intro k e he
          match k with
          | 0 =>
            simp only [List.getElem?_cons_zero, Option.some.injEq] at he
            subst he
            exact stageStep_falsePreserved hs
          | Nat.succ k2 =>
            simp only [List.getElem?_cons_succ] at he
            exact falsePreserved_trans (stageStep_falsePreserved hs) ((ih hr).2 k2 e he)

lemma runStages_trace_mono {v : Bool} {mo : Vec → Nat} {env : AttackEnv}
    {xo : List Vec} {yo : List Nat} {bs : Nat} :
    ∀ {l : List String} {st fin : AAState} {tr : List (String × AAState)}
      {log : List LogEvent} {k1 k2 : Nat} {e1 e2 : String × AAState},
      runStages v mo env xo yo bs l st = .ok (fin, tr, log) →
      k1 ≤ k2 → tr[k1]? = some e1 → tr[k2]? = some e2 →
      FalsePreserved e1.2.flags e2.2.flags := by
  intro l
  induction l with
  | nil =>
    intro st fin tr log k1 k2 e1 e2 h hk h1 h2
    simp only [runStages, Except.ok.injEq, Prod.mk.injEq] at h
    obtain ⟨-, htr, -⟩ := h
    subst htr
    simp at h1
  | cons a rest ih =>
    intro st fin tr log k1 k2 e1 e2 h hk h1 h2
    simp only [runStages] at h
    split at h
    · simp only [Except.ok.injEq, Prod.mk.injEq] at h
      obtain ⟨-, htr, -⟩ := h
      subst htr
      simp at h1
    · split at h
      · exact Except.noConfusion h
      · rename_i st1 log1 hs
        split at h
        · exact Except.noConfusion h
        · rename_i finA trA log2 hr
          simp only [Except.ok.injEq, Prod.mk.injEq] at h
          obtain ⟨-, htr, -⟩ := h
          subst htr
          match k1, k2 with
          | 0, 0 =>
            simp only [List.getElem?_cons_zero, Option.some.injEq] at h1 h2
            subst h1; subst h2
            exact falsePreserved_refl _
          | 0, Nat.succ m2 =>
            simp only [List.getElem?_cons_zero, Option.some.injEq] at h1
            simp only [List.getElem?_cons_succ] at h2
            subst h1
            exact (runStages_trace_falsePreserved hr).2 m2 e2 h2
          | Nat.succ m1, 0 => exact absurd hk (by omega)
          | Nat.succ m1, Nat.succ m2 =>
            simp only [List.getElem?_cons_succ] at h1 h2
            exact ih hr (by omega) h1 h2

lemma runStages_trace_preservesOrig {v : Bool} {mo : Vec → Nat} {env : AttackEnv}
    {xo : List Vec} {yo : List Nat} {bs : Nat} :
    ∀ {l : List String} {st fin : AAState} {tr : List (String × AAState)}
      {log : List LogEvent},
      runStages v mo env xo yo bs l st = .ok (fin, tr, log) →
      PreservesOrig xo st →
      PreservesOrig xo fin ∧ ∀ p ∈ tr, PreservesOrig xo p.2 := by
  intro l
  induction l with
  | nil =>
    intro st fin tr log h hst
    simp only [runStages, Except.ok.injEq, Prod.mk.injEq] at h
    obtain ⟨h1, h2, -⟩ := h
    subst h1; subst h2
    exact ⟨hst, by intro p hp; simp at hp⟩
  | cons a rest ih =>
    intro st fin tr log h hst
    simp only [runStages] at h
    split at h
    · simp only [Except.ok.injEq, Prod.mk.injEq] at h
      obtain ⟨h1, h2, -⟩ := h
      subst h1; subst h2
      exact ⟨hst, by intro p hp; simp at hp⟩
    · split at h
      · exact Except.noConfusion h
      · rename_i st1 log1 hs
        split at h
        · exact Except.noConfusion h
        · rename_i finA trA log2 hr
          simp only [Except.ok.injEq, Prod.mk.injEq] at h
          obtain ⟨h1, h2, -⟩ := h
          subst h1; subst h2
          have hst1 : PreservesOrig xo st1 := stageStep_preservesOrig hs hst
          obtain ⟨hfin, htr⟩ := ih hr hst1
          refine ⟨hfin, ?_⟩
          intro p hp
          rcases List.mem_cons.mp hp with rfl | hp2
          · exact hst1
          · exact htr p hp2

lemma runStages_stop_of_count_zero {v : Bool} {mo : Vec → Nat} {env : AttackEnv}
    {xo : List Vec} {yo : List Nat} {bs : Nat} {l : List String} {st : AAState}
    (h : st.flags.count true = 0) :
    runStages v mo env xo yo bs l st = .ok (st, [], []) := by
  cases l with
  | nil => simp [runStages]
  | cons a rest => simp [runStages, h]

lemma runStages_append {v : Bool} {mo : Vec → Nat} {env : AttackEnv}
    {xo : List Vec} {yo : List Nat} {bs : Nat} :
    ∀ (l1 l2 : List String) (st : AAState),
      runStages v mo env xo yo bs (l1 ++ l2) st =
      (match runStages v mo env xo yo bs l1 st with
       | .error e => .error e
       | .ok (st1, tr1, log1) =>
         match runStages v mo env xo yo bs l2 st1 with
         | .error e => .error e
         | .ok (st2, tr2, log2) => .ok (st2, tr1 ++ tr2, log1 ++ log2)) := by
  intro l1
  induction l1 with
  | nil =>
    intro l2 st
    simp only [List.nil_append, runStages]
    rcases h : runStages v mo env xo yo bs l2 st with e | p
    · simp
    · obtain ⟨st2, tr2, log2⟩ := p
      simp
  | cons a rest ih =>
    intro l2 st
    rw [List.cons_append]
    by_cases h0 : st.flags.count true = 0
    · simp only [runStages, h0, if_true]
      rw [runStages_stop_of_count_zero h0]
      simp
    · simp only [runStages, h0, if_false]
      rcases hs : stageStep v mo env xo yo bs a st with e | p
      · simp
      · obtain ⟨st1, log1⟩ := p
        simp only []
        rw [ih l2 st1]
        rcases hr : runStages v mo env xo yo bs rest st1 with e2 | q
        · simp
        · obtain ⟨finA, trA, logA⟩ := q
          simp only []
          rcases hl2 : runStages v mo env xo yo bs l2 finA with e3 | r
          · simp
          · obtain ⟨st2, tr2, log2⟩ := r
            simp [List.append_assoc]

lemma dispatch_unknown {env : AttackEnv} {x : List Vec} {y : List Nat}
    {a : String} (h : a ∉ knownAttacks) :
    dispatch env a x y = .error ("Attack not supported") := by
  simp only [knownAttacks, List.mem_cons, not_or] at h
  obtain ⟨h1, h2, h3, h4, h5, h6, -⟩ := h
  simp [dispatch, h1, h2, h3, h4, h5, h6]

lemma nBatches_pos {n bs : Nat} (hn : n ≠ 0) (hbs : 0 < bs) : 0 < nBatches n bs := by
  unfold nBatches
  rw [Nat.lt_iff_add_one_le, Nat.le_div_iff_mul_le hbs]
  omega

lemma runBatches_cons_unknown {v : Bool} {mo : Vec → Nat} {env : AttackEnv}
    {xo : List Vec} {yo : List Nat} {a : String} {nb : Nat}
    {b : Nat × List Nat} {rest : List (Nat × List Nat)} {st : AAState}
    (ha : a ∉ knownAttacks) :
    runBatches v mo env xo yo a nb (b :: rest) st = .error ("Attack not supported") := by
  simp only [runBatches, batchStep]
  rw [dispatch_unknown ha]

/-- Whenever a stage with an identifier outside the closed vocabulary is
reached with a non-empty active set and a positive batch size, its first
sub-batch hits the final `else: raise ValueError('Attack not supported')`. -/
lemma stageStep_unknown {v : Bool} {mo : Vec → Nat} {env : AttackEnv}
    {xo : List Vec} {yo : List Nat} {bs : Nat} {a : String} {st : AAState}
    (ha : a ∉ knownAttacks) (hbs : 0 < bs) (hc : st.flags.count true ≠ 0) :
    stageStep v mo env xo yo bs a st = .error ("Attack not supported") := by
  have hnb : 0 < nBatches (st.flags.count true) bs := nBatches_pos hc hbs
  obtain ⟨m, hm⟩ := Nat.exists_eq_succ_of_ne_zero (Nat.pos_iff_ne_zero.mp hnb)
  simp only [stageStep]
  rw [hm, List.range_succ_eq_map, List.map_cons, runBatches_cons_unknown ha]

/-! ### Verbosity only gates diagnostics -/

lemma batchStep_verbose_fst (v1 v2 : Bool) (mo : Vec → Nat) (env : AttackEnv)
    (xo : List Vec) (yo : List Nat) (a : String) (nb : Nat) (st : AAState)
    (bi : Nat) (idcs : List Nat) :
    (batchStep v1 mo env xo yo a nb st bi idcs).map Prod.fst =
    (batchStep v2 mo env xo yo a nb st bi idcs).map Prod.fst := by
  simp only [batchStep]
  split <;> simp [Except.map]

lemma runBatches_verbose_fst (v1 v2 : Bool) (mo : Vec → Nat) (env : AttackEnv)
    (xo : List Vec) (yo : List Nat) (a : String) (nb : Nat) :
    ∀ (bl : List (Nat × List Nat)) (st : AAState),
    (runBatches v1 mo env xo yo a nb bl st).map Prod.fst =
    (runBatches v2 mo env xo yo a nb bl st).map Prod.fst := by
  intro bl
  induction bl with
  | nil => intro st; simp [runBatches, Except.map]
  | cons b rest ih =>
    intro st
    have hb := batchStep_verbose_fst v1 v2 mo env xo yo a nb st b.1 b.2
    simp only [runBatches]
    rcases h1 : batchStep v1 mo env xo yo a nb st b.1 b.2 with e | p
    · rw [h1] at hb
      rcases h2 : batchStep v2 mo env xo yo a nb st b.1 b.2 with e2 | p2
      · rw [h2] at hb
        simp only [Except.map] at hb
        cases hb
        simp [Except.map]
      · rw [h2] at hb; simp [Except.map] at hb
    · rw [h1] at hb
      rcases h2 : batchStep v2 mo env xo yo a nb st b.1 b.2 with e2 | p2
      · rw [h2] at hb; simp [Except.map] at hb
      · rw [h2] at hb
        simp only [Except.map, Except.ok.injEq] at hb
        obtain ⟨st1, log1⟩ := p
        obtain ⟨st2, log2⟩ := p2
        simp only at hb
        subst hb
        have hr := ih st1
        rcases hA : runBatches v1 mo env xo yo a nb rest st1 with eA | pA
        · rw [hA] at hr
          rcases hB : runBatches v2 mo env xo yo a nb rest st1 with eB | pB
          · rw [hB] at hr
            simp only [Except.map] at hr
            cases hr
            simp [hA, hB, Except.map]
          · rw [hB] at hr; simp [Except.map] at hr
        · rw [hA] at hr
          rcases hB : runBatches v2 mo env xo yo a nb rest st1 with eB | pB
          · rw [hB] at hr; simp [Except.map] at hr
          · rw [hB] at hr
            simp only [Except.map, Except.ok.injEq] at hr
            obtain ⟨stA, logA⟩ := pA
            obtain ⟨stB, logB⟩ := pB
            simp only at hr
            subst hr
            simp [hA, hB, Except.map]

lemma stageStep_verbose_fst (v1 v2 : Bool) (mo : Vec → Nat) (env : AttackEnv)
    (xo : List Vec) (yo : List Nat) (bs : Nat) (a : String) (st : AAState) :
    (stageStep v1 mo env xo yo bs a st).map Prod.fst =
    (stageStep v2 mo env xo yo bs a st).map Prod.fst := by
  simp only [stageStep]
  have hb := runBatches_verbose_fst v1 v2 mo env xo yo a
    (nBatches (st.flags.count true) bs)
    ((List.range (nBatches (st.flags.count true) bs)).map
      (fun b => (b, ((activeIdcs st.flags).drop (b * bs)).take
        (min ((b + 1) * bs) (st.flags.count true) - b * bs)))) st
  rcases h1 : runBatches v1 mo env xo yo a (nBatches (st.flags.count true) bs)
      ((List.range (nBatches (st.flags.count true) bs)).map
        (fun b => (b, ((activeIdcs st.flags).drop (b * bs)).take
          (min ((b + 1) * bs) (st.flags.count true) - b * bs)))) st with e | p
  · rw [h1] at hb
    rcases h2 : runBatches v2 mo env xo yo a (nBatches (st.flags.count true) bs)
        ((List.range (nBatches (st.flags.count true) bs)).map
          (fun b => (b, ((activeIdcs st.flags).drop (b * bs)).take
            (min ((b + 1) * bs) (st.flags.count true) - b * bs)))) st with e2 | p2
    · rw [h2] at hb
      simp only [Except.map] at hb
      cases hb
      simp [Except.map]
    · rw [h2] at hb; simp [Except.map] at hb
  · rw [h1] at hb
    rcases h2 : runBatches v2 mo env xo yo a (nBatches (st.flags.count true) bs)
        ((List.range (nBatches (st.flags.count true) bs)).map
          (fun b => (b, ((activeIdcs st.flags).drop (b * bs)).take
            (min ((b + 1) * bs) (st.flags.count true) - b * bs)))) st with e2 | p2
    · rw [h2] at hb; simp [Except.map] at hb
    · rw [h2] at hb
      simp only [Except.map, Except.ok.injEq] at hb
      obtain ⟨st1, log1⟩ := p
      obtain ⟨st2, log2⟩ := p2
      simp only at hb
      subst hb
      simp [Except.map]

lemma runStages_verbose_fst (v1 v2 : Bool) (mo : Vec → Nat) (env : AttackEnv)
    (xo : List Vec) (yo : List Nat) (bs : Nat) :
    ∀ (l : List String) (st : AAState),
    (runStages v1 mo env xo yo bs l st).map (fun r => (r.1, r.2.1)) =
    (runStages v2 mo env xo yo bs l st).map (fun r => (r.1, r.2.1)) := by
  intro l
  induction l with
  | nil => intro st; simp [runStages, Except.map]
  | cons a rest ih =>
    intro st
    by_cases h0 : st.flags.count true = 0
    · simp [runStages, h0, Except.map]
    · simp only [runStages, h0, if_false]
      have hs := stageStep_verbose_fst v1 v2 mo env xo yo bs a st
      rcases h1 : stageStep v1 mo env xo yo bs a st with e | p
      · rw [h1] at hs
        rcases h2 : stageStep v2 mo env xo yo bs a st with e2 | p2
        · rw [h2] at hs
          simp only [Except.map] at hs
          cases hs
          simp [Except.map]
        · rw [h2] at hs; simp [Except.map] at hs
      · rw [h1] at hs
        rcases h2 : stageStep v2 mo env xo yo bs a st with e2 | p2
        · rw [h2] at hs; simp [Except.map] at hs
        · rw [h2] at hs
          simp only [Except.map, Except.ok.injEq] at hs
          obtain ⟨st1, log1⟩ := p
          obtain ⟨st2, log2⟩ := p2
          simp only at hs
          subst hs
          have hr := ih st1
          rcases hA : runStages v1 mo env xo yo bs rest st1 with eA | pA
          · rw [hA] at hr
            rcases hB : runStages v2 mo env xo yo bs rest st1 with eB | pB
            · rw [hB] at hr
              simp only [Except.map] at hr
              cases hr
              simp [hA, hB, Except.map]
            · rw [hB] at hr; simp [Except.map] at hr
          · rw [hA] at hr
            rcases hB : runStages v2 mo env xo yo bs rest st1 with eB | pB
            · rw [hB] at hr; simp [Except.map] at hr
            · rw [hB] at hr
              simp only [Except.map, Except.ok.injEq] at hr
              obtain ⟨finA, trA, logA⟩ := pA
              obtain ⟨finB, trB, logB⟩ := pB
              simp only [Prod.mk.injEq] at hr
              obtain ⟨hfin, htr⟩ := hr
              subst hfin; subst htr
              simp [hA, hB, Except.map]

/-! ### Claim theorems -/

/-- C1: the claim says that constructing with `plus=true` and then calling
`run_standard_evaluation` executes the four base attacks followed by the
two targeted ones.  The code does not: `list.extend` returns `None`, so
`__init__` with `plus=True` stores `attacks_to_run = None`, and the
reconciliation at the top of `run_standard_evaluation` then raises a
`TypeError` at its first membership test instead of running any attack.
This theorem evaluates the model at that failing input. -/
theorem claim_C1_plus_at_construction_crashes :
    (initAutoAttack ("Linf") (3/10) none true ["apgd-ce", "apgd-dlr", "fab", "square"]
        true).map (fun c => c.attacksToRun) = .ok none ∧
    (initAutoAttack ("Linf") (3/10) none true ["apgd-ce", "apgd-dlr", "fab", "square"]
        true).map (fun c => run_standard_evaluation c zeroModel idEnv [[0]] [0] 250) =
      .ok (.error ("TypeError: argument of type NoneType is not iterable")) := by
  constructor <;> rfl

/-- C5: the claim says `clean_accuracy` returns the fraction of all `N`
samples for every positive batch size, independent of `bs`.  The code uses
floor division (`n_batches = x_orig.shape[0] // bs`), so with 3 samples
and `bs = 2` the third sample is dropped: every sample is correctly
classified, yet the function returns 2/3 instead of 1; and with `bs`
exceeding `N` the loop never runs, `acc` stays a Python float, and
`acc.item()` raises `AttributeError` instead of returning anything. -/
theorem claim_C5_trailing_batch_dropped :
    clean_accuracy false zeroModel [[0], [1], [2]] [0, 0, 0] 2 = .ok (2/3) ∧
    correctCount zeroModel [[0], [1], [2]] [0, 0, 0] = 3 ∧
    (2 : ℚ)/3 ≠ (3 : ℚ)/3 ∧
    clean_accuracy false zeroModel [[0]] [0] 250 =
      .error ("AttributeError: float object has no attribute item") := by
  refine ⟨?_, by decide, by norm_num, by rfl⟩
  have h : clean_accuracy false zeroModel [[0], [1], [2]] [0, 0, 0] 2 =
      .ok (((2 : Nat) : ℚ) / ((3 : Nat) : ℚ)) := by
    simp [clean_accuracy, zeroModel, List.range, List.range.loop]
  rw [h]
  simp only [Except.ok.injEq]
  norm_num

/-- C6: the claim says every sub-batch reaches the attack with batch rank
(a leading batch dimension plus the per-sample shape) down to a single
remaining robust sample.  With `num_robust = 1` the index tensor keeps
shape `(1, 1)` (the squeeze is guarded by `num_robust > 1`), advanced
indexing then yields shape `(1, 1, C, H, W)` — rank 5, not 4 — and the
`len(x.shape) == 3` guard never fires; with two robust samples the rank
is the correct 4. -/
theorem claim_C6_single_sample_rank_wrong :
    subBatchShape [5, 3, 32, 32] 1 0 1 = [1, 1, 3, 32, 32] ∧
    (subBatchShape [5, 3, 32, 32] 1 0 1).length = 5 ∧
    subBatchShape [5, 3, 32, 32] 2 0 2 = [2, 3, 32, 32] := by
  refine ⟨by decide, by decide, by decide⟩

/-- C7 counterexample: the claim says `cheap()` leaves the `plus` flag
unchanged; on an object with `plus` set, `cheap()` clears it. -/
theorem claim_C7_counterexample_plus_cleared :
    (cheap { baseCfg with plus := true }).plus ≠
      ({ baseCfg with plus := true } : AAConfig).plus := by
  decide

/-- C7 amended: `cheap()` sets the three restart counts to 1 and the
square query budget to 1000, leaves `attacks_to_run`, norm, epsilon, seed
and verbose unchanged, and additionally forces the `plus` flag to false. -/
theorem claim_C7_cheap_frame (cfg : AAConfig) :
    (cheap cfg).apgd_n_restarts = 1 ∧ (cheap cfg).fab_n_restarts = 1 ∧
    (cheap cfg).apgd_targeted_n_restarts = 1 ∧ (cheap cfg).square_n_queries = 1000 ∧
    (cheap cfg).norm = cfg.norm ∧ (cheap cfg).epsilon = cfg.epsilon ∧
    (cheap cfg).seed = cfg.seed ∧ (cheap cfg).verbose = cfg.verbose ∧
    (cheap cfg).attacksToRun = cfg.attacksToRun ∧ (cheap cfg).plus = false := by
  refine ⟨rfl, rfl, rfl, rfl, rfl, rfl, rfl, rfl, rfl, rfl⟩

/-- C2: throughout `run_standard_evaluation` and at its return, every
index whose robust flag is still true holds exactly the original input in
`x_adv`: `x_adv` starts as a copy of `x_orig` and is overwritten only at
indices the post-attack probe reports as misclassified, simultaneously
with the flag being cleared. -/
theorem claim_C2_robust_entries_equal_original {cfg : AAConfig} {mo : Vec → Nat}
    {env : AttackEnv} {xo : List Vec} {yo : List Nat} {bs : Nat} {out : RunOutput}
    (h : run_standard_evaluation cfg mo env xo yo bs = .ok out) :
    (∀ i, out.flags.getD i false = true → out.xadv.getD i [] = xo.getD i []) ∧
    (∀ p ∈ out.trace, ∀ i, p.2.flags.getD i false = true →
      p.2.xadv.getD i [] = xo.getD i []) := by
  simp only [run_standard_evaluation] at h
  split at h
  · exact Except.noConfusion h
  · rename_i attacks hrec
    split at h
    · exact Except.noConfusion h
    · rename_i fin tr log1 hrun
      simp only [Except.ok.injEq] at h
      subst h
      have hinit : PreservesOrig xo
          ({ flags := initRobustFlags mo xo yo bs, xadv := xo } : AAState) :=
        fun _ _ => rfl
      obtain ⟨hfin, htr⟩ := runStages_trace_preservesOrig hrun hinit
      exact ⟨hfin, htr⟩

/-- C2 witness: a four-stage run with never-succeeding attacks on one
correctly classified sample keeps its flag true and returns the original
input unchanged. -/
theorem claim_C2_witness :
    survivingRunOut.flags.getD 0 false = true ∧
    survivingRunOut.xadv.getD 0 [] = ([[(0 : ℚ)]] : List Vec).getD 0 [] := by
  have h := claim_C2_robust_entries_equal_original
    (show run_standard_evaluation baseCfg zeroModel idEnv [[0]] [0] 250 =
      .ok survivingRunOut from rfl)
  exact ⟨rfl, h.1 0 rfl⟩

/-- C3: robust flags are monotonically non-increasing over the stages of
one `run_standard_evaluation` call: if a sample's flag is false in the
state after stage `k1`, it is still false after any later stage `k2`. -/
theorem claim_C3_flags_monotone {cfg : AAConfig} {mo : Vec → Nat}
    {env : AttackEnv} {xo : List Vec} {yo : List Nat} {bs : Nat} {out : RunOutput}
    {k1 k2 : Nat} {e1 e2 : String × AAState} {i : Nat}
    (h : run_standard_evaluation cfg mo env xo yo bs = .ok out)
    (hk : k1 < k2) (h1 : out.trace[k1]? = some e1) (h2 : out.trace[k2]? = some e2)
    (hfalse : e1.2.flags.getD i false = false) :
    e2.2.flags.getD i false = false := by
  simp only [run_standard_evaluation] at h
  split at h
  · exact Except.noConfusion h
  · rename_i attacks hrec
    split at h
    · exact Except.noConfusion h
    · rename_i fin tr log1 hrun
      simp only [Except.ok.injEq] at h
      subst h
      exact runStages_trace_mono hrun (le_of_lt hk) h1 h2 i hfalse

/-- C3 witness: in a two-stage run in which the first stage breaks sample
0, the flag for sample 0 is false after stage 0 and still false after
stage 1. -/
theorem claim_C3_witness :
    (twoStageOut.trace[1]?).map (fun e => e.2.flags.getD 0 false) = some false := by
  have h := claim_C3_flags_monotone
    (show run_standard_evaluation cfg3 thrModel breakEnv [[0], [20]] [0, 1] 250 =
      .ok twoStageOut from rfl)
    (show 0 < 1 by decide)
    (show twoStageOut.trace[0]? = some ("apgd-ce", ⟨[false, true], [[100], [20]]⟩) from rfl)
    (show twoStageOut.trace[1]? = some ("apgd-dlr", ⟨[false, true], [[100], [20]]⟩) from rfl)
    (show (⟨[false, true], [[100], [20]]⟩ : AAState).flags.getD 0 false = false from rfl)
  simp only [show twoStageOut.trace[1]? =
    some ("apgd-dlr", ⟨[false, true], [[100], [20]]⟩) from rfl, Option.map_some]
  exact congrArg some h

/-- C4: the stage loop rechecks the robust count at the top of every
iteration and breaks when it is zero: once a prefix of the plan leaves no
robust sample, appending further stages changes nothing — no later stage
executes (the trace gains no entry) and the state is unchanged. -/
theorem claim_C4_no_stage_after_empty {v : Bool} {mo : Vec → Nat} {env : AttackEnv}
    {xo : List Vec} {yo : List Nat} {bs : Nat} {l1 l2 : List String}
    {st st1 : AAState} {tr1 : List (String × AAState)} {log1 : List LogEvent}
    (h : runStages v mo env xo yo bs l1 st = .ok (st1, tr1, log1))
    (h0 : st1.flags.count true = 0) :
    runStages v mo env xo yo bs (l1 ++ l2) st = .ok (st1, tr1, log1) := by
  rw [runStages_append l1 l2 st, h]
  dsimp only
  rw [runStages_stop_of_count_zero h0]
  simp

/-- C4 witness: one sample broken by the first stage; appending a second
stage leaves the run's result (state and executed-stage trace)
unchanged — the second adapter is never invoked. -/
theorem claim_C4_witness :
    runStages false thrModel breakEnv [[0]] [0] 250 (["apgd-ce"] ++ ["apgd-dlr"])
      ⟨[true], [[0]]⟩ =
    .ok (⟨[false], [[100]]⟩, [("apgd-ce", ⟨[false], [[100]]⟩)], []) := by
  exact claim_C4_no_stage_after_empty
    (show runStages false thrModel breakEnv [[0]] [0] 250 ["apgd-ce"] ⟨[true], [[0]]⟩ =
      .ok (⟨[false], [[100]]⟩, [("apgd-ce", ⟨[false], [[100]]⟩)], []) from rfl)
    (show (⟨[false], [[100]]⟩ : AAState).flags.count true = 0 from rfl)

/-- C8: an attack identifier outside the closed vocabulary raises
`ValueError('Attack not supported')` at the point its stage is dispatched,
in every run that still has a non-empty active set when that stage is
reached (it is never silently skipped); and a norm outside
`['Linf', 'L2']` is rejected by the constructor's assert. -/
theorem claim_C8_unknown_attack_and_norm :
    (∀ (v : Bool) (mo : Vec → Nat) (env : AttackEnv) (xo : List Vec)
       (yo : List Nat) (bs : Nat) (l1 l2 : List String) (a : String)
       (st st1 : AAState) (tr1 : List (String × AAState)) (log1 : List LogEvent),
       a ∉ knownAttacks → 0 < bs →
       runStages v mo env xo yo bs l1 st = .ok (st1, tr1, log1) →
       st1.flags.count true ≠ 0 →
       runStages v mo env xo yo bs (l1 ++ a :: l2) st =
         .error ("Attack not supported")) ∧
    (∀ (norm : String) (eps : ℚ) (seed : Option Nat) (verbose : Bool)
       (attacks : List String) (plus : Bool),
       norm ∉ (["Linf", "L2"] : List String) →
       initAutoAttack norm eps seed verbose attacks plus =
         .error ("AssertionError")) := by
  constructor
  · intro v mo env xo yo bs l1 l2 a st st1 tr1 log1 ha hbs h1 hc
    have h2 : runStages v mo env xo yo bs (a :: l2) st1 =
        .error ("Attack not supported") := by
      simp only [runStages]
      rw [if_neg hc, stageStep_unknown ha hbs hc]
    rw [runStages_append l1 (a :: l2) st, h1]
    dsimp only
    rw [h2]
  · intro norm eps seed verbose attacks plus hn
    simp [initAutoAttack, hn]

/-- C8 witness: dispatching the unknown identifier on a one-sample active
set errors, and constructing with norm `L1` errors. -/
theorem claim_C8_witness :
    runStages false zeroModel idEnv [[(0 : ℚ)]] [0] 250 ([] ++ "bad-attack" :: [])
      ⟨[true], [[0]]⟩ = .error ("Attack not supported") ∧
    initAutoAttack ("L1") (3/10) none true ["apgd-ce"] false =
      .error ("AssertionError") :=
  ⟨claim_C8_unknown_attack_and_norm.1 false zeroModel idEnv [[(0 : ℚ)]] [0] 250
      [] [] "bad-attack" ⟨[true], [[0]]⟩ ⟨[true], [[0]]⟩ [] []
      (by decide) (by decide) rfl (by decide),
   claim_C8_unknown_attack_and_norm.2 ("L1") (3/10) none true ["apgd-ce"] false
      (by decide)⟩

/-- C9: with the same configuration, model, attacks, inputs, labels and
batch size, the verbosity flag has no influence on the computed results:
the returned adversarial tensor and the final robust flags are identical
for any two verbosity settings; only the log differs. -/
theorem claim_C9_verbose_only_gates_output (cfg : AAConfig) (b1 b2 : Bool)
    (mo : Vec → Nat) (env : AttackEnv) (xo : List Vec) (yo : List Nat) (bs : Nat) :
    resultOf (run_standard_evaluation { cfg with verbose := b1 } mo env xo yo bs) =
    resultOf (run_standard_evaluation { cfg with verbose := b2 } mo env xo yo bs) := by
  simp only [resultOf, run_standard_evaluation]
  rcases h : reconcileAttacks cfg.plus cfg.attacksToRun with e | attacks
  · rfl
  · dsimp only
    have hr := runStages_verbose_fst b1 b2 mo env xo yo bs attacks
      ⟨initRobustFlags mo xo yo bs, xo⟩
    rcases hA : runStages b1 mo env xo yo bs attacks
        ⟨initRobustFlags mo xo yo bs, xo⟩ with eA | pA
    · rw [hA] at hr
      rcases hB : runStages b2 mo env xo yo bs attacks
          ⟨initRobustFlags mo xo yo bs, xo⟩ with eB | pB
      · rw [hB] at hr
        simp only [Except.map] at hr
        cases hr
        rfl
      · rw [hB] at hr; simp [Except.map] at hr
    · rw [hA] at hr
      rcases hB : runStages b2 mo env xo yo bs attacks
          ⟨initRobustFlags mo xo yo bs, xo⟩ with eB | pB
      · rw [hB] at hr; simp [Except.map] at hr
      · rw [hB] at hr
        simp only [Except.map, Except.ok.injEq] at hr
        obtain ⟨finA, trA, logA⟩ := pA
        obtain ⟨finB, trB, logB⟩ := pB
        simp only [Prod.mk.injEq] at hr
        obtain ⟨hfin, htr⟩ := hr
        subst hfin; subst htr
        rfl

lemma run_standard_evaluation_cfg {cfg : AAConfig} {mo : Vec → Nat}
    {env : AttackEnv} {xo : List Vec} {yo : List Nat} {bs : Nat} {out : RunOutput}
    (h : run_standard_evaluation cfg mo env xo yo bs = .ok out) :
    ∃ att, reconcileAttacks cfg.plus cfg.attacksToRun = .ok att ∧
      out.cfg = { cfg with attacksToRun := some att } := by
  simp only [run_standard_evaluation] at h
  split at h
  · exact Except.noConfusion h
  · rename_i att hrec
    split at h
    · exact Except.noConfusion h
    · rename_i fin tr log1 hrun
      simp only [Except.ok.injEq] at h
      subst h
      exact ⟨att, hrec, rfl⟩

lemma reconcile_false_singleton (c : String) :
    reconcileAttacks false (some [c]) = .ok ((([c]).erase ("apgd-t")).erase ("fab-t")) := rfl

lemma indivLoop_final_cfg {mo : Vec → Nat} {env : AttackEnv} {xo : List Vec}
    {yo : List Nat} {bs : Nat} {vi : Bool} :
    ∀ {l : List String} {cfg cfgF : AAConfig}
      {advs : List (String × List Vec)} {log : List LogEvent} {c : String},
      cfg.plus = false → cfg.verbose = false →
      l.getLast? = some c →
      indivLoop mo env xo yo bs vi l cfg = .ok (cfgF, advs, log) →
      cfgF.plus = false ∧ cfgF.verbose = false ∧
        cfgF.attacksToRun = some ((([c]).erase ("apgd-t")).erase ("fab-t")) := by
  intro l
  induction l with
  | nil =>
    intro cfg cfgF advs log c hplus hverb hlast h
    exact Option.noConfusion hlast
  | cons c0 rest ih =>
    intro cfg cfgF advs log c hplus hverb hlast h
    simp only [indivLoop] at h
    split at h
    · exact Except.noConfusion h
    · rename_i out hrun
      split at h
      · exact Except.noConfusion h
      · rename_i log1 hrep
        split at h
        · exact Except.noConfusion h
        · rename_i cfgB advsB logB hloop
          simp only [Except.ok.injEq, Prod.mk.injEq] at h
          obtain ⟨h1, -, -⟩ := h
          subst h1
          obtain ⟨att, hrec, hcfg⟩ := run_standard_evaluation_cfg hrun
          have hplusB : out.cfg.plus = false := by rw [hcfg]; exact hplus
          have hverbB : out.cfg.verbose = false := by rw [hcfg]; exact hverb
          cases rest with
          | nil =>
            simp only [List.getLast?_singleton, Option.some.injEq] at hlast
            subst hlast
            simp only [indivLoop, Except.ok.injEq, Prod.mk.injEq] at hloop
            obtain ⟨h2, -, -⟩ := hloop
            subst h2
            refine ⟨hplusB, hverbB, ?_⟩
            rw [hcfg]
            simp only
            have : reconcileAttacks ({ cfg with attacksToRun := some [c0] }).plus
                ({ cfg with attacksToRun := some [c0] }).attacksToRun = .ok att := hrec
            rw [show ({ cfg with attacksToRun := some [c0] } : AAConfig).plus =
              cfg.plus from rfl, hplus] at this
            rw [reconcile_false_singleton c0] at this
            simp only [Except.ok.injEq] at this
            rw [← this]
          | cons c1 rest2 =>
            rw [List.getLast?_cons_cons] at hlast
            exact ih hplusB hverbB hlast hloop

/-- C10 counterexample: with the four base attacks configured, the `plus`
flag set and verbosity off (so the per-attack report — and with it the
`AttributeError` that `clean_accuracy` raises whenever `bs > N` — is never
reached), `run_standard_evaluation_individual` genuinely completes, and it
completes with `attacks_to_run = []` — not the single-element list
containing the last attack it ran (`fab-t`) — because the nested run's
reconciliation removes the targeted identifier from the singleton list.
The verbose and plus parts of the claim do hold (both end up false).  The
second conjunct records that with verbosity on at the same `bs > N` the
call does not complete at all: the first iteration's report raises. -/
theorem claim_C10_counterexample :
    (run_standard_evaluation_individual { baseCfg with plus := true }
        zeroModel idEnv [[0]] [0] 250).map
      (fun r => (r.1.attacksToRun, r.1.verbose, r.1.plus)) =
      .ok (some [], false, false) ∧
    run_standard_evaluation_individual { baseCfg with plus := true, verbose := true }
        zeroModel idEnv [[0]] [0] 250 =
      .error ("AttributeError: float object has no attribute item") ∧
    some ([] : List String) ≠ some ["fab-t"] := by
  exact ⟨rfl, rfl, by decide⟩

/-- C10 amended: after a completed `run_standard_evaluation_individual`,
`self.verbose` and `self.plus` are false regardless of their entry values,
and `self.attacks_to_run` equals the singleton list of the last attack
identifier it ran with the two targeted identifiers removed — i.e. the
singleton `[c]` when the last ran attack `c` is untargeted, and `[]` when
`c` is `apgd-t` or `fab-t`; the original configuration is not restored. -/
theorem claim_C10_individual_mutates_state {cfg : AAConfig} {mo : Vec → Nat}
    {env : AttackEnv} {xo : List Vec} {yo : List Nat} {bs : Nat}
    {lr : List String} {c : String} {cfgF : AAConfig}
    {advs : List (String × List Vec)} {log : List LogEvent}
    (hext : indivExtend cfg.plus cfg.attacksToRun = .ok lr)
    (hlast : lr.getLast? = some c)
    (h : run_standard_evaluation_individual cfg mo env xo yo bs =
      .ok (cfgF, advs, log)) :
    cfgF.verbose = false ∧ cfgF.plus = false ∧
    cfgF.attacksToRun = some ((([c]).erase ("apgd-t")).erase ("fab-t")) := by
  simp only [run_standard_evaluation_individual] at h
  split at h
  · exact Except.noConfusion h
  · rename_i lr2 hext2
    rw [hext] at hext2
    simp only [Except.ok.injEq] at hext2
    subst hext2
    obtain ⟨hp, hv, ha⟩ := indivLoop_final_cfg
      (show ({ cfg with attacksToRun := some lr, plus := false, verbose := false } : AAConfig).plus = false from rfl)
      (show ({ cfg with attacksToRun := some lr, plus := false, verbose := false } : AAConfig).verbose = false from rfl)
      hlast h
    exact ⟨hv, hp, ha⟩

/-- C10 witness: on the default plan the last attack ran is `square`, so
the object is left with `attacks_to_run = ["square"]`, verbose and plus
cleared. -/
theorem claim_C10_witness :
    ({ baseCfg with attacksToRun := some ["square"] } : AAConfig).verbose = false ∧
    ({ baseCfg with attacksToRun := some ["square"] } : AAConfig).plus = false ∧
    ({ baseCfg with attacksToRun := some ["square"] } : AAConfig).attacksToRun =
      some (((["square"]).erase ("apgd-t")).erase ("fab-t")) := by
  exact claim_C10_individual_mutates_state
    (show indivExtend baseCfg.plus baseCfg.attacksToRun =
      .ok ["apgd-ce", "apgd-dlr", "fab", "square"] from rfl)
    (show (["apgd-ce", "apgd-dlr", "fab", "square"] : List String).getLast? =
      some ("square") from rfl)
    (show run_standard_evaluation_individual baseCfg zeroModel idEnv [[0]] [0] 250 =
      .ok ({ baseCfg with attacksToRun := some ["square"] },
        [("apgd-ce", [[0]]), ("apgd-dlr", [[0]]), ("fab", [[0]]), ("square", [[0]])],
        []) from rfl)
